import Mathlib

/-!
Verification development for the fvid codec (src/fvid/fvid.py).

fvid converts an arbitrary file into a sequence of black/white raster frames and back.
This file gives a shallow embedding of the pure core of the pipeline:

* bytes <-> bits conversion (the bitstring library's BitArray.bin / Bits.bytes, one byte
  becoming eight bits, most significant bit first);
* base64 encoding/decoding of binary fields (Python base64.b64encode / b64decode; the
  decoder here is strict: it rejects characters outside the alphabet, while Python's
  validate=False decoder skips them.  No theorem below depends on the behaviour of
  b64decode outside the image of b64encode or on non-string inputs);
* the container codec get_bits_from_file / save_bits_to_file;
* the frame encoder/decoder make_image_sequence / get_bits_from_image and the video
  level loop get_bits_from_video;
* the chunking helper split_string_by_n and the final-chunk padding;
* the framerate check of main() and the password handling of get_password.

External libraries that are not part of the repository (AES-EAX from pycryptodome,
gzip, json, PBKDF2) are modelled as components of an ExtLib record; the container
theorems take the documented contracts of those libraries (round-trip and
well-formedness of their outputs) as explicit hypotheses.  The AES nonce and the KDF
salt are the fixed module constant SALT in the source, so they do not appear as
arguments here: they are folded into the abstract cipher/KDF functions.  A small
executable instance (toyLib) satisfying every contract is used to witness the
hypothesised theorems on concrete inputs.

Python byte strings are lists of naturals below 256, bit strings (strings of the
characters 0/1 in the source) are lists of booleans, and parsed JSON documents are
JValue trees (json.loads can return any JSON document, so fields of the container
record can be missing or carry a non-string value).
-/

/-- Byte strings are lists of naturals; a byte is genuine when below 256. -/
abbrev Bytes := List Nat

/-- All entries of the byte string are genuine 8-bit bytes. -/
def ValidBytes (bs : Bytes) : Prop := ∀ b ∈ bs, b < 256

instance (bs : Bytes) : Decidable (ValidBytes bs) := List.decidableBAll (fun b => b < 256) bs

/-- One byte rendered most-significant-bit first, as BitArray.bin renders each byte. -/
def byteToBits (b : Nat) : List Bool :=
  [b / 128 % 2 == 1, b / 64 % 2 == 1, b / 32 % 2 == 1, b / 16 % 2 == 1,
   b / 8 % 2 == 1, b / 4 % 2 == 1, b / 2 % 2 == 1, b % 2 == 1]

/-- BitArray(bytes).bin: the bit string of a byte blob, eight bits per byte. -/
def bytesToBits (bs : Bytes) : List Bool := bs.flatMap byteToBits

/-- Value of an 8-bit group, most significant bit first. -/
def bitsToByte (l : List Bool) : Nat :=
  l.foldl (fun acc b => 2 * acc + (if b then 1 else 0)) 0

/-- Bits(bin=bits).bytes: bytes of a bit string.  The bitstring library raises on a bit
string whose length is not a multiple of eight; every call site in fvid passes whole
bytes (frames carry width*height bits and 1920*1080 is divisible by 8), and the model
simply drops a trailing partial group, which no theorem below exercises. -/
def bitsToBytes : List Bool → Bytes
  | b0 :: b1 :: b2 :: b3 :: b4 :: b5 :: b6 :: b7 :: rest =>
      bitsToByte [b0, b1, b2, b3, b4, b5, b6, b7] :: bitsToBytes rest
  | _ => []

/-- The base64 alphabet, in order. -/
def b64Chars : List Char :=
  "ABCDEFGHIJKLMNOPQRSTUVWXYZabcdefghijklmnopqrstuvwxyz0123456789+/".toList

/-- Character for a 6-bit value. -/
def b64Chr (n : Nat) : Char := b64Chars.getD n '='

/-- 6-bit value of an alphabet character, none for a character outside the alphabet. -/
def b64Val (c : Char) : Option Nat := b64Chars.indexOf? c

/-- base64.b64encode: three bytes become four characters; a final group of one or two
bytes is padded with one or two = characters. -/
def b64encodeChunks : List Nat → List Char
  | b0 :: b1 :: b2 :: rest =>
      let c := b0 * 65536 + b1 * 256 + b2
      b64Chr (c / 262144) :: b64Chr (c / 4096 % 64) :: b64Chr (c / 64 % 64) :: b64Chr (c % 64) ::
        b64encodeChunks rest
  | [b0, b1] =>
      let c := b0 * 1024 + b1 * 4
      [b64Chr (c / 4096), b64Chr (c / 64 % 64), b64Chr (c % 64), '=']
  | [b0] =>
      let c := b0 * 16
      [b64Chr (c / 64), b64Chr (c % 64), '=', '=']
  | [] => []

/-- base64.b64encode(...).decode("utf-8"): the textual base64 form of a byte blob. -/
def b64encode (bs : List Nat) : String := String.mk (b64encodeChunks bs)

/-- Decode one final base64 quad, honouring = padding. -/
def b64decodeQuad (c0 c1 c2 c3 : Char) : Option (List Nat) :=
  if c3 = '=' then
    if c2 = '=' then
      match b64Val c0, b64Val c1 with
      | some v0, some v1 => some [(v0 * 64 + v1) / 16]
      | _, _ => none
    else
      match b64Val c0, b64Val c1, b64Val c2 with
      | some v0, some v1, some v2 =>
          some [(v0 * 4096 + v1 * 64 + v2) / 1024, (v0 * 4096 + v1 * 64 + v2) % 1024 / 4]
      | _, _, _ => none
  else
    match b64Val c0, b64Val c1, b64Val c2, b64Val c3 with
    | some v0, some v1, some v2, some v3 =>
        some [(v0 * 262144 + v1 * 4096 + v2 * 64 + v3) / 65536,
              (v0 * 262144 + v1 * 4096 + v2 * 64 + v3) / 256 % 256,
              (v0 * 262144 + v1 * 4096 + v2 * 64 + v3) % 256]
    | _, _, _, _ => none

/-- Decode a base64 character string, four characters at a time. -/
def b64decodeChunks : List Char → Option (List Nat)
  | [] => some []
  | [c0, c1, c2, c3] => b64decodeQuad c0 c1 c2 c3
  | c0 :: c1 :: c2 :: c3 :: rest =>
      match b64Val c0, b64Val c1, b64Val c2, b64Val c3, b64decodeChunks rest with
      | some v0, some v1, some v2, some v3, some bs =>
          some ((v0 * 262144 + v1 * 4096 + v2 * 64 + v3) / 65536 ::
                (v0 * 262144 + v1 * 4096 + v2 * 64 + v3) / 256 % 256 ::
                (v0 * 262144 + v1 * 4096 + v2 * 64 + v3) % 256 :: bs)
      | _, _, _, _, _ => none
  | _ => none

/-- base64.b64decode on a string. -/
def b64decode (s : String) : Option (List Nat) := b64decodeChunks s.toList

/-- A parsed JSON document, as returned by json.loads. -/
inductive JValue where
  | str (s : String)
  | num (n : Int)
  | bool (b : Bool)
  | null
  | arr (elems : List JValue)
  | obj (fields : List (String × JValue))

/-- The user-facing error taxonomy of the decode/encode pipeline.  The source raises
WrongPassword("Key incorrect or message corrupted") when the EAX tag check fails
(the specification calls this AuthenticationFailure); a failure of gzip, json.loads,
a missing dictionary key or a base64 TypeError earlier in save_bits_to_file escapes
as an uncaught exception of a different class (the specification's
MalformedContainer); the framerate grammar check of main() raises
NotImplementedError (the specification's InvalidFramerate); missing mode flags raise
MissingArgument. -/
inductive FvidError where
  | wrongPassword
  | malformedContainer
  | invalidFramerate
  | missingArgument
deriving DecidableEq

/-- The external libraries used by fvid, as abstract functions.  The AES-EAX cipher is
always constructed as AES.new(key, AES.MODE_EAX, nonce=SALT) with the fixed module
constant SALT, so the nonce is folded into the four cipher functions;
encrypt_and_digest is split into its ciphertext and tag components.  jsonDumps
serialises the dictionary with fields tag, data, filename (in that insertion order)
and utf-8 encodes it; jsonLoads parses bytes into a JSON document, none meaning a
parse failure.  kdfDerive is PBKDF2HMAC-SHA512 with the fixed salt, 100000 iterations
and 32-byte output, applied to the utf-8 encoding of the password. -/
structure ExtLib where
  aesEncrypt : Bytes → Bytes → Bytes
  aesTag : Bytes → Bytes → Bytes
  aesDecrypt : Bytes → Bytes → Bytes
  aesVerify : Bytes → Bytes → Bytes → Bool
  gzipCompress : Bytes → Bytes
  gzipDecompress : Bytes → Option Bytes
  jsonDumps : String → String → String → Bytes
  jsonLoads : Bytes → Option JValue
  kdfDerive : String → Bytes

/-- os.path.basename for slash-separated paths (the value the source computes at line 88
and then never uses: the json record stores the full filepath instead). -/
def os_path_basename (p : String) : String :=
  String.mk ((p.toList.reverse.takeWhile (fun c => c != '/')).reverse)

/-- The three string fields of the json record built by get_bits_from_file, in source
order: base64 of the EAX tag, base64 of the ciphertext, and the filename field, which
is the full filepath argument as supplied (not os.path.basename of it). -/
def containerRecord (lib : ExtLib) (filepath : String) (fileBytes : Bytes) (key : Bytes) :
    String × String × String :=
  (b64encode (lib.aesTag key fileBytes), b64encode (lib.aesEncrypt key fileBytes), filepath)

/-- get_bits_from_file: encrypt-and-digest the file bytes under the key, serialise
tag/ciphertext/filename as json (byte fields in base64), gzip the serialisation and
return its bit string.  fileBytes stands for BitArray(filename=filepath).tobytes(). -/
def get_bits_from_file (lib : ExtLib) (filepath : String) (fileBytes : Bytes) (key : Bytes) :
    List Bool :=
  let r := containerRecord lib filepath fileBytes key
  bytesToBits (lib.gzipCompress (lib.jsonDumps r.1 r.2.1 r.2.2))

/-- Subscripting data[k] on a parsed JSON document: a value only when the document is an
object containing the key.  (On a non-object document or a missing key Python raises
TypeError/KeyError, which save_bits_to_file does not catch.) -/
def jlookup : JValue → String → Option JValue
  | .obj fields, k => fields.lookup k
  | _, _ => none

/-- base64.b64decode applied to a parsed JSON field: Python raises TypeError on any
non-string argument. -/
def b64decodeJ : JValue → Option Bytes
  | .str s => b64decode s
  | _ => none

/-- save_bits_to_file: bits to bytes, gunzip, json.loads, read and base64-decode the
tag and data fields, read the filename field, then decrypt and verify under the fixed
nonce.  A gzip/json/lookup/base64 failure escapes before the cipher stage
(malformedContainer); a failed tag check raises WrongPassword after decryption; on
success the plaintext is written to the supplied output path, or to the recorded
filename field when no output path was supplied.  The returned pair is (path written
to, bytes written); an error value means no file is written. -/
def save_bits_to_file (lib : ExtLib) (file_path : Option String) (bits : List Bool)
    (key : Bytes) : Except FvidError (JValue × Bytes) :=
  match lib.gzipDecompress (bitsToBytes bits) with
  | none => .error .malformedContainer
  | some record =>
    match lib.jsonLoads record with
    | none => .error .malformedContainer
    | some data =>
      match jlookup data "tag" with
      | none => .error .malformedContainer
      | some tagField =>
        match b64decodeJ tagField with
        | none => .error .malformedContainer
        | some tag =>
          match jlookup data "data" with
          | none => .error .malformedContainer
          | some dataField =>
            match b64decodeJ dataField with
            | none => .error .malformedContainer
            | some ciphertext =>
              match jlookup data "filename" with
              | none => .error .malformedContainer
              | some filename =>
                let plaintext := lib.aesDecrypt key ciphertext
                if lib.aesVerify key ciphertext tag then
                  match file_path with
                  | none => .ok (filename, plaintext)
                  | some p => .ok (.str p, plaintext)
                else .error .wrongPassword

/-- The file write that save_bits_to_file performs: some (path, bytes) when the open/
write at the end of the function is reached, none when the function raised first. -/
def writtenFile : Except FvidError (JValue × Bytes) → Option (JValue × Bytes)
  | .ok r => some r
  | .error _ => none

/-- One decoded pixel: three integer 8-bit colour channels. -/
abbrev Pixel := Int × Int × Int

/-- The per-pixel classification of get_bits_from_image: the bit is 1 exactly when all
three channels are strictly closer (by absolute difference) to 255 than to 0. -/
def classifyPixel (pixel : Pixel) : Bool :=
  if (pixel.1 - 255).natAbs < (pixel.1 - 0).natAbs ∧
      (pixel.2.1 - 255).natAbs < (pixel.2.1 - 0).natAbs ∧
      (pixel.2.2 - 255).natAbs < (pixel.2.2 - 0).natAbs then
    true
  else false

/-- The specification's wording of the classification rule: the pixel's colour is
closer, by per-channel absolute difference on all three channels, to white (255) than
to black (0). -/
def closerToWhiteSpec (pixel : Pixel) : Prop :=
  (pixel.1 - 255).natAbs < (pixel.1 - 0).natAbs ∧
    (pixel.2.1 - 255).natAbs < (pixel.2.1 - 0).natAbs ∧
    (pixel.2.2 - 255).natAbs < (pixel.2.2 - 0).natAbs

/-- The pixel a stored bit comes back as after the lossless video round trip: bit 1 is
pure white, bit 0 is pure black. -/
def pixelOfBit (b : Bool) : Pixel := if b then (255, 255, 255) else (0, 0, 0)

/-- A raster frame: fixed size plus a pixel accessor, image.load()[x, y] in the source. -/
structure FImage where
  width : Nat
  height : Nat
  px : Nat → Nat → Pixel

instance : Inhabited FImage := ⟨⟨0, 0, fun _ _ => (0, 0, 0)⟩⟩

/-- Image.new("1", (w, h)) followed by putdata(bits): pixels are filled row-major,
left-to-right then top-to-bottom; pixels beyond the supplied data keep the initial
black of Image.new. -/
def putdataImage (w h : Nat) (bits : List Bool) : FImage :=
  ⟨w, h, fun x y => pixelOfBit (bits.getD (y * w + x) false)⟩

/-- get_bits_from_image: scan rows top-to-bottom, pixels left-to-right, appending the
classification of each pixel. -/
def get_bits_from_image (image : FImage) : List Bool :=
  (List.range image.height).flatMap
    (fun y => (List.range image.width).map (fun x => classifyPixel (image.px x y)))

/-- The frame-decoding loop of get_bits_from_video: bits starts empty and the loop
appends get_bits_from_image(image_sequence[index]) for index = 0 .. length-1.  The
image_sequence argument stands for the ordered frame images the external demuxer
produced. -/
def get_bits_from_video (image_sequence : List FImage) : List Bool :=
  (List.range image_sequence.length).foldl
    (fun bits index => bits ++ get_bits_from_image (image_sequence.getD index default)) []

/-- split_string_by_n: the slices s[i : i+n] for i = 0, n, 2n, ... below the length.
(For n = 0 Python's range raises ValueError; the model returns [], a case no caller
reaches since n is always width*height > 0.) -/
def split_string_by_n {α : Type} : List α → Nat → List (List α)
  | [], _ => []
  | _ :: _, 0 => []
  | l@(_ :: _), n + 1 => l.take (n + 1) :: split_string_by_n (l.drop (n + 1)) (n + 1)
termination_by l _ => l.length
decreasing_by simp_all [List.length_drop]; omega

/-- The in-place update bitlist[-1] = bitlist[-1] + "0" * (set_size - len(bitlist[-1])):
the last chunk is extended with trailing 0 bits up to n.  (On an empty list the source
would raise IndexError; encode always has a non-empty bitstream.) -/
def padLast : List (List Bool) → Nat → List (List Bool)
  | [], _ => []
  | [c], n => [c ++ List.replicate (n - c.length) false]
  | c :: rest, n => c :: padLast rest n

/-- make_image_sequence: cut the bitstream into width*height chunks, pad the final
chunk with zeros, and emit one frame per chunk with 1-based consecutive indices (the
source walks a reversed copy with pop(), which restores the original order; index
starts at 1 and increments by one per saved frame). -/
def make_image_sequence (bitstring : List Bool) (w h : Nat) : List (Nat × FImage) :=
  let set_size := w * h
  let bitlist := padLast (split_string_by_n bitstring set_size) set_size
  bitlist.enum.map (fun p => (p.1 + 1, putdataImage w h p.2))

/-- Python str.isdigit restricted to ASCII digits: non-empty and all characters
digits. -/
def pyIsdigit (s : String) : Bool := !s.toList.isEmpty && s.toList.all Char.isDigit

/-- Python's c in s for a single-character c. -/
def pyContains (s : String) (c : Char) : Bool := s.toList.contains c

/-- The framerate guard of main()'s encode branch, exactly as written: reject when the
string neither is all digits nor contains a slash, or when it contains both a minus
sign and a slash. -/
def framerate_rejected (framerate : String) : Bool :=
  (!pyIsdigit framerate && !pyContains framerate '/') ||
    (pyContains framerate '-' && pyContains framerate '/')

/-- The encode branch of main(): the framerate guard runs first and raises
NotImplementedError (the specification's InvalidFramerate) before get_bits_from_file
or make_image_sequence do any work; otherwise the frames are produced and handed to
the external muxer. -/
def encodeBranch (lib : ExtLib) (framerate : String) (input_path : String)
    (input_bytes : Bytes) (key : Bytes) (w h : Nat) :
    Except FvidError (List (Nat × FImage)) :=
  if framerate_rejected framerate then .error .invalidFramerate
  else .ok (make_image_sequence (get_bits_from_file lib input_path input_bytes key) w h)

/-- DEFAULT_KEY = (" " * 32).encode(): thirty-two space bytes (0x20 = 32). -/
def DEFAULT_KEY : Bytes := List.replicate 32 32

/-- get_password: the literal password "default" short-circuits to DEFAULT_KEY with no
prompt and no key derivation; a missing password (None) is read interactively with
getpass (no echo) and then derived; any other password is derived directly.  The
returned boolean records whether the interactive prompt ran; prompt_reply stands for
the secret the user would type at it. -/
def get_password (lib : ExtLib) (prompt_reply : String) (password_provided : Option String) :
    Bytes × Bool :=
  if password_provided = some "default" then (DEFAULT_KEY, false)
  else (lib.kdfDerive (password_provided.getD prompt_reply), password_provided.isNone)

/-- How the password flag (short form -p, long form --password) can appear on the
command line. -/
inductive PasswordArg where
  | absent
  | flagOnly
  | flagWithValue (v : String)

/-- argparse with nargs="?", default="default": an absent flag yields the string
"default", the bare flag yields None, and a flag with a value yields that value. -/
def parse_password_arg : PasswordArg → Option String
  | .absent => some "default"
  | .flagOnly => none
  | .flagWithValue v => some v

/-- The parse-stage failures of save_bits_to_file that the source surfaces before
constructing the cipher: gzip failure, json parse failure, a missing or non-string
tag field, a missing or non-string data field, or a missing filename field.  (A
present but non-string filename field is deliberately NOT listed: the source reads it
without any type check and proceeds to the cipher.) -/
def ParseFails (lib : ExtLib) (blob : Bytes) : Prop :=
  lib.gzipDecompress blob = none ∨
  (∃ r, lib.gzipDecompress blob = some r ∧ lib.jsonLoads r = none) ∨
  (∃ r j, lib.gzipDecompress blob = some r ∧ lib.jsonLoads r = some j ∧
    (jlookup j "tag" = none ∨
     (∃ tv, jlookup j "tag" = some tv ∧ ∀ s, tv ≠ JValue.str s) ∨
     jlookup j "data" = none ∨
     (∃ dv, jlookup j "data" = some dv ∧ ∀ s, dv ≠ JValue.str s) ∨
     jlookup j "filename" = none))

/-- Unary encoding of a natural: n ones then a zero (toy serialisation helper). -/
def toyEncNat (n : Nat) : Bytes := List.replicate n 1 ++ [0]

/-- Inverse of toyEncNat, returning the remaining bytes. -/
def toyDecNat : Bytes → Option (Nat × Bytes)
  | 0 :: rest => some (0, rest)
  | 1 :: rest => (toyDecNat rest).map (fun p => (p.1 + 1, p.2))
  | _ => none

/-- Toy encoding of one character by its code point. -/
def toyEncChar (c : Char) : Bytes := toyEncNat c.toNat

/-- Toy encoding of a string: its length, then each character. -/
def toyEncStr (s : String) : Bytes := toyEncNat s.toList.length ++ s.toList.flatMap toyEncChar

/-- Read count characters back. -/
def toyDecChars : Nat → Bytes → Option (List Char × Bytes)
  | 0, r => some ([], r)
  | k + 1, r =>
    match toyDecNat r with
    | some (c, r1) =>
      match toyDecChars k r1 with
      | some (cs, r2) => some (Char.ofNat c :: cs, r2)
      | none => none
    | none => none

/-- Inverse of toyEncStr, returning the remaining bytes. -/
def toyDecStr (b : Bytes) : Option (String × Bytes) :=
  match toyDecNat b with
  | some (k, r) =>
    match toyDecChars k r with
    | some (cs, r2) => some (String.mk cs, r2)
    | none => none
  | none => none

/-- Toy stand-in for json.dumps of the three-field container record. -/
def toyJDumps (t d f : String) : Bytes := toyEncStr t ++ (toyEncStr d ++ toyEncStr f)

/-- Toy stand-in for json.loads: parses exactly the documents toyJDumps produces. -/
def toyJLoads (b : Bytes) : Option JValue :=
  match toyDecStr b with
  | some (t, r1) =>
    match toyDecStr r1 with
    | some (d, r2) =>
      match toyDecStr r2 with
      | some (f, []) =>
          some (.obj [("tag", .str t), ("data", .str d), ("filename", .str f)])
      | _ => none
    | none => none
  | none => none

/-- Toy gzip: prepend a marker byte.  Decompression fails on anything not produced by
compression, giving a concrete inhabitant of the decompression-failure contract. -/
def toyGzipDecompress : Bytes → Option Bytes
  | 7 :: b => some b
  | _ => none

/-- A concrete, executable instance of every external-library contract: the cipher is
the identity with the key as tag (so verification succeeds exactly when the tag equals
the verifying key), gzip prepends a marker byte, json is the toy serialiser, and the
KDF maps each character of the password to a byte. -/
def toyLib : ExtLib where
  aesEncrypt := fun _ p => p
  aesTag := fun k _ => k
  aesDecrypt := fun _ c => c
  aesVerify := fun k _ t => t == k
  gzipCompress := fun b => 7 :: b
  gzipDecompress := toyGzipDecompress
  jsonDumps := toyJDumps
  jsonLoads := toyJLoads
  kdfDerive := fun s => s.toList.map (fun c => c.toNat % 256)

/-- A library identical to toyLib except that json.loads additionally parses the blob
[2, 5, 5] into a record whose filename field is the number 42 rather than a string;
json.dumps of {"tag": ..., "data": ..., "filename": 42} is such a blob for the real
json library, so this models a well-formed gzip+json container with a mis-typed
filename field. -/
def ceLib : ExtLib :=
  { toyLib with
    jsonLoads := fun b =>
      if b = [2, 5, 5] then
        some (.obj [("tag", .str (b64encode [1])), ("data", .str (b64encode [9])),
          ("filename", .num 42)])
      else toyJLoads b }

/-! ## Byte/bit and base64 round trips -/

set_option maxRecDepth 4000 in
/-- Reading the eight bits of a genuine byte back gives the byte. -/
theorem bitsToByte_byteToBits : ∀ b : Nat, b < 256 → bitsToByte (byteToBits b) = b := by decide

/-- bitsToBytes consumes exactly eight bits per byte. -/
theorem bitsToBytes_append8 (b : Nat) (l : List Bool) :
    bitsToBytes (byteToBits b ++ l) = bitsToByte (byteToBits b) :: bitsToBytes l := rfl

/-- Bytes to bits and back is the identity on genuine byte strings. -/
theorem bitsToBytes_bytesToBits (bs : Bytes) (h : ValidBytes bs) :
    bitsToBytes (bytesToBits bs) = bs := by
  induction bs with
  | nil => rfl
  | cons b bs ih =>
      rw [bytesToBits, List.flatMap_cons, bitsToBytes_append8,
        bitsToByte_byteToBits b (h b (by simp)), ← bytesToBits,
        ih (fun x hx => h x (by simp [hx]))]

set_option maxRecDepth 2000 in
/-- The alphabet value of the character of a 6-bit value. -/
theorem b64Val_b64Chr : ∀ n : Nat, n < 64 → b64Val (b64Chr n) = some n := by decide

/-- Alphabet characters are never the padding character. -/
theorem b64Chr_ne_eq : ∀ n : Nat, n < 64 → b64Chr n ≠ '=' := by decide

/-- Base64 decoding inverts encoding on genuine byte strings. -/
theorem b64_roundtrip_chunks (bs : List Nat) (h : ∀ b ∈ bs, b < 256) :
    b64decodeChunks (b64encodeChunks bs) = some bs := by
  induction bs using b64encodeChunks.induct with
  | case4 => rfl
  | case3 b0 =>
      have hb0 : b0 < 256 := h b0 (by simp)
      have h1 : b0 * 16 / 64 < 64 := by omega
      have h2 : b0 * 16 % 64 < 64 := by omega
      simp only [b64encodeChunks, b64decodeChunks, b64decodeQuad, if_pos rfl, if_true,
        b64Val_b64Chr _ h1, b64Val_b64Chr _ h2]
      rw [show b0 * 16 / 64 * 64 + b0 * 16 % 64 = b0 * 16 from by omega]
      rw [show b0 * 16 / 16 = b0 from by omega]
  | case2 b0 b1 =>
      have hb0 : b0 < 256 := h b0 (by simp)
      have hb1 : b1 < 256 := h b1 (by simp)
      have h1 : (b0 * 1024 + b1 * 4) / 4096 < 64 := by omega
      have h2 : (b0 * 1024 + b1 * 4) / 64 % 64 < 64 := by omega
      have h3 : (b0 * 1024 + b1 * 4) % 64 < 64 := by omega
      simp only [b64encodeChunks, b64decodeChunks, b64decodeQuad, if_pos rfl, if_true,
        if_neg (b64Chr_ne_eq _ h3), b64Val_b64Chr _ h1, b64Val_b64Chr _ h2, b64Val_b64Chr _ h3]
      rw [show ∀ c : Nat, c / 4096 * 4096 + c / 64 % 64 * 64 + c % 64 = c from fun c => by omega]
      rw [show (b0 * 1024 + b1 * 4) / 1024 = b0 from by omega,
        show (b0 * 1024 + b1 * 4) % 1024 / 4 = b1 from by omega]
  | case1 b0 b1 b2 rest ih =>
      have hb0 : b0 < 256 := h b0 (by simp)
      have hb1 : b1 < 256 := h b1 (by simp)
      have hb2 : b2 < 256 := h b2 (by simp)
      have hrest := ih (fun x hx => h x (by simp [hx]))
      have h0 : (b0 * 65536 + b1 * 256 + b2) / 262144 < 64 := by omega
      have h1 : (b0 * 65536 + b1 * 256 + b2) / 4096 % 64 < 64 := by omega
      have h2 : (b0 * 65536 + b1 * 256 + b2) / 64 % 64 < 64 := by omega
      have h3 : (b0 * 65536 + b1 * 256 + b2) % 64 < 64 := by omega
      have hre : ∀ c : Nat,
          c / 262144 * 262144 + c / 4096 % 64 * 4096 + c / 64 % 64 * 64 + c % 64 = c :=
        fun c => by omega
      have hc0 : (b0 * 65536 + b1 * 256 + b2) / 65536 = b0 := by omega
      have hc1 : (b0 * 65536 + b1 * 256 + b2) / 256 % 256 = b1 := by omega
      have hc2 : (b0 * 65536 + b1 * 256 + b2) % 256 = b2 := by omega
      simp only [b64encodeChunks]
      cases henc : b64encodeChunks rest with
      | nil =>
          rw [henc] at hrest
          have hrnil : rest = [] := by
            cases rest with
            | nil => rfl
            | cons x xs => simp [b64decodeChunks] at hrest
          subst hrnil
          simp only [b64decodeChunks, b64decodeQuad, if_neg (b64Chr_ne_eq _ h3),
            b64Val_b64Chr _ h0, b64Val_b64Chr _ h1, b64Val_b64Chr _ h2, b64Val_b64Chr _ h3]
          rw [hre, hc0, hc1, hc2]
      | cons y ys =>
          rw [henc] at hrest
          simp only [b64decodeChunks, b64Val_b64Chr _ h0, b64Val_b64Chr _ h1,
            b64Val_b64Chr _ h2, b64Val_b64Chr _ h3, hrest]
          rw [hre, hc0, hc1, hc2]

/-- b64decode inverts b64encode on genuine byte strings. -/
theorem b64decode_b64encode (bs : Bytes) (h : ValidBytes bs) :
    b64decode (b64encode bs) = some bs := by
  have : (b64encode bs).toList = b64encodeChunks bs := rfl
  rw [b64decode, this, b64_roundtrip_chunks bs h]

/-! ## Frame encoder/decoder -/

/-- A stored bit classifies back to itself: pure white to 1, pure black to 0. -/
theorem classifyPixel_pixelOfBit : ∀ b : Bool, classifyPixel (pixelOfBit b) = b := by decide

/-- Reading the first w positions of a list by index. -/
theorem range_map_getD {α : Type} (l : List α) (d : α) :
    ∀ w, w ≤ l.length → (List.range w).map (fun x => l.getD x d) = l.take w := by
  intro w
  induction w with
  | zero => intro _; rfl
  | succ w ih =>
      intro hw
      rw [List.range_succ, List.map_append, ih (Nat.le_of_succ_le hw), List.take_succ]
      simp [List.getD_eq_getElem?_getD, List.getElem?_eq_getElem (Nat.lt_of_succ_le hw)]

/-- getD after drop reads at a shifted index. -/
theorem getD_drop {α : Type} (l : List α) (n i : Nat) (d : α) :
    (l.drop n).getD i d = l.getD (n + i) d := by
  simp [List.getD_eq_getElem?_getD, List.getElem?_drop]

/-- Row-major scan of a length w*h list by index (y, x) reassembles the list. -/
theorem grid_flatten {α : Type} (d : α) :
    ∀ (hh : Nat) (l : List α) (w : Nat), l.length = w * hh →
      (List.range hh).flatMap (fun y => (List.range w).map (fun x => l.getD (y * w + x) d)) = l := by
  intro hh
  induction hh with
  | zero =>
      intro l w hlen
      have : l = [] := List.length_eq_zero.mp (by simpa using hlen)
      simp [this]
  | succ hh ih =>
      intro l w hlen
      have hwle : w ≤ l.length := by
        rw [hlen, Nat.mul_succ]
        exact Nat.le_add_left w (w * hh)
      rw [List.range_succ_eq_map, List.flatMap_cons, List.flatMap_map]
      have hrow : (List.range w).map (fun x => l.getD (0 * w + x) d) = l.take w := by
        simpa using range_map_getD l d w hwle
      have hbody :
          (List.range hh).flatMap
              (fun y => (List.range w).map (fun x => l.getD (Nat.succ y * w + x) d))
            = l.drop w := by
        have hlen' : (l.drop w).length = w * hh := by
          rw [List.length_drop, hlen, Nat.mul_succ]
          omega
        have := ih (l.drop w) w hlen'
        rw [← this]
        congr 1
        funext y
        congr 1
        funext x
        rw [getD_drop]
        congr 1
        rw [Nat.succ_mul]
        ring
      rw [hrow, hbody, List.take_append_drop]

/-- C2 core: a frame built from exactly w*h bits decodes back to those bits. -/
theorem get_bits_putdata (w h : Nat) (bits : List Bool) (hlen : bits.length = w * h) :
    get_bits_from_image (putdataImage w h bits) = bits := by
  unfold get_bits_from_image putdataImage
  simp only [classifyPixel_pixelOfBit]
  exact grid_flatten false h bits w hlen

/-! ## Sequencer -/

/-- Unrolling the indexed accumulation loop of get_bits_from_video. -/
theorem foldl_append_getD {α β : Type} (f : α → List β) (d : α) :
    ∀ (l : List α) (acc : List β),
      (List.range l.length).foldl (fun bits i => bits ++ f (l.getD i d)) acc
        = acc ++ (l.map f).flatten := by
  intro l
  induction l with
  | nil => intro acc; simp
  | cons x xs ih =>
      intro acc
      rw [List.length_cons, List.range_succ_eq_map, List.foldl_cons, List.foldl_map]
      simp only [List.getD_cons_succ, List.getD_cons_zero]
      rw [ih (acc ++ f x)]
      simp [List.append_assoc]

/-- Unfolding split_string_by_n on a non-empty list and positive chunk size. -/
theorem split_cons {α : Type} (l : List α) (hl : l ≠ []) (n : Nat) :
    split_string_by_n l (n + 1)
      = l.take (n + 1) :: split_string_by_n (l.drop (n + 1)) (n + 1) := by
  cases l with
  | nil => exact absurd rfl hl
  | cons x xs => simp [split_string_by_n]

/-- split_string_by_n produces ceil(length / n) chunks. -/
theorem split_length {α : Type} :
    ∀ (l : List α) (n : Nat), 0 < n → l ≠ [] →
      (split_string_by_n l n).length = (l.length + n - 1) / n := by
  intro l n
  induction l, n using split_string_by_n.induct with
  | case1 n => intro _ hne; exact absurd rfl hne
  | case2 a t => intro h0; omega
  | case3 a t n ih =>
      intro _ hne
      have hlc := List.length_cons a t
      simp only [Nat.succ_eq_add_one]
      rw [split_cons (a :: t) hne n, List.length_cons]
      by_cases hd : (a :: t).drop (n + 1) = []
      · have hlen : (a :: t).length ≤ n + 1 := by
          have := List.length_drop (n + 1) (a :: t)
          rw [hd] at this
          simp at this
          omega
        have hpos : 0 < (a :: t).length := List.length_pos.mpr hne
        rw [hd]
        have hone : ((a :: t).length + (n + 1) - 1) / (n + 1) = 1 := by
          apply Nat.div_eq_of_lt_le
          · omega
          · omega
        rw [hone]
        simp [split_string_by_n]
      · have hlen : n + 1 < (a :: t).length := by
          have hld := List.length_drop (n + 1) (a :: t)
          have : ((a :: t).drop (n + 1)).length ≠ 0 := by
            intro hc
            exact hd (List.length_eq_zero.mp hc)
          omega
        rw [ih (Nat.succ_pos n) hd, List.length_drop]
        have h1 : (a :: t).length - (n + 1) + (n + 1) - 1 = (a :: t).length - 1 := by omega
        rw [h1]
        have h2 : ((a :: t).length - 1 + (n + 1)) / (n + 1)
            = ((a :: t).length - 1) / (n + 1) + 1 :=
          Nat.add_div_right _ (Nat.succ_pos n)
        have h3 : (a :: t).length - 1 + (n + 1) = (a :: t).length + (n + 1) - 1 := by omega
        rw [h3] at h2
        omega

/-- The i-th chunk of split_string_by_n is the slice starting at i*n of length at
most n. -/
theorem split_getD {α : Type} :
    ∀ (l : List α) (n : Nat), 0 < n → ∀ i : Nat,
      (split_string_by_n l n).getD i [] = (l.drop (i * n)).take n := by
  intro l n
  induction l, n using split_string_by_n.induct with
  | case1 n => intro _ i; simp [split_string_by_n]
  | case2 a t => intro h0; omega
  | case3 a t n ih =>
      intro hp i
      simp only [Nat.succ_eq_add_one]
      rw [split_cons (a :: t) (by simp) n]
      cases i with
      | zero => simp
      | succ i =>
          rw [List.getD_cons_succ, ih (Nat.succ_pos n) i, List.drop_drop]
          congr 2
          ring

/-- Padding the last chunk does not change the number of chunks. -/
theorem padLast_length : ∀ (l : List (List Bool)) (n : Nat), (padLast l n).length = l.length
  | [], _ => rfl
  | [_], _ => rfl
  | _ :: d :: rest, n => by
      simp [padLast, padLast_length (d :: rest) n]

/-- Padding the last chunk leaves every non-final chunk unchanged. -/
theorem padLast_getD_lt :
    ∀ (l : List (List Bool)) (n i : Nat), i + 1 < l.length →
      (padLast l n).getD i [] = l.getD i []
  | [], _, _, h => by simp at h
  | [_], _, i, h => by simp at h
  | _ :: d :: rest, n, 0, _ => rfl
  | c :: d :: rest, n, i + 1, h => by
      simp only [padLast, List.getD_cons_succ]
      exact padLast_getD_lt (d :: rest) n i (by simp at h ⊢; omega)

/-- The final chunk is extended with trailing zero bits. -/
theorem padLast_getD_last :
    ∀ (l : List (List Bool)) (n : Nat), l ≠ [] →
      (padLast l n).getD (l.length - 1) []
        = l.getD (l.length - 1) []
            ++ List.replicate (n - (l.getD (l.length - 1) []).length) false
  | [], _, h => absurd rfl h
  | [c], n, _ => rfl
  | c :: d :: rest, n, _ => by
      have ih := padLast_getD_last (d :: rest) n (by simp)
      simp only [padLast, List.length_cons, Nat.add_sub_cancel] at ih ⊢
      simp only [List.getD_cons_succ]
      exact ih

/-- The 1-based frame indices of make_image_sequence are consecutive from 1, and the
i-th frame image is built from the i-th padded chunk. -/
theorem make_image_sequence_struct (bitstring : List Bool) (w h : Nat) :
    (make_image_sequence bitstring w h).map Prod.fst
        = List.range' 1 (padLast (split_string_by_n bitstring (w * h)) (w * h)).length ∧
      (make_image_sequence bitstring w h).map Prod.snd
        = (padLast (split_string_by_n bitstring (w * h)) (w * h)).map (putdataImage w h) := by
  constructor
  · rw [make_image_sequence, List.map_map, List.range'_eq_map_range]
    have hf : (Prod.fst ∘ fun p : Nat × List Bool => (p.1 + 1, putdataImage w h p.2))
        = (fun x => 1 + x) ∘ Prod.fst := by
      funext p
      simp [Nat.add_comm]
    rw [hf, ← List.map_map, List.enum_map_fst]
  · rw [make_image_sequence, List.map_map]
    have hf : (Prod.snd ∘ fun p : Nat × List Bool => (p.1 + 1, putdataImage w h p.2))
        = putdataImage w h ∘ Prod.snd := by
      funext p
      rfl
    rw [hf, ← List.map_map, List.enum_map_snd]

/-! ## Container codec -/

/-- Field lookups on the record that get_bits_from_file serialises. -/
theorem jlookup_record (t d f : String) :
    jlookup (.obj [("tag", .str t), ("data", .str d), ("filename", .str f)]) "tag"
        = some (.str t) ∧
      jlookup (.obj [("tag", .str t), ("data", .str d), ("filename", .str f)]) "data"
        = some (.str d) ∧
      jlookup (.obj [("tag", .str t), ("data", .str d), ("filename", .str f)]) "filename"
        = some (.str f) := by
  refine ⟨?_, ?_, ?_⟩ <;> simp [jlookup, List.lookup]

/-- Evaluating save_bits_to_file on the exact output of get_bits_from_file: the parse
stages all succeed and the result is decided by the tag verification, under the
documented contracts of gzip (decompression inverts compression, compression emits
genuine bytes), json (loads inverts dumps, dumps emits genuine bytes) and AES-EAX
(ciphertext and tag of genuine bytes under a genuine key are genuine bytes). -/
theorem save_build (lib : ExtLib)
    (hgz : ∀ b, lib.gzipDecompress (lib.gzipCompress b) = some b)
    (hgzv : ∀ b, ValidBytes b → ValidBytes (lib.gzipCompress b))
    (hjson : ∀ t d f, lib.jsonLoads (lib.jsonDumps t d f)
      = some (.obj [("tag", .str t), ("data", .str d), ("filename", .str f)]))
    (hjsonv : ∀ t d f, ValidBytes (lib.jsonDumps t d f))
    (hencv : ∀ k p, ValidBytes p → ValidBytes (lib.aesEncrypt k p))
    (htagv : ∀ k p, ValidBytes k → ValidBytes (lib.aesTag k p))
    (kEnc kDec B : Bytes) (name : String) (out : Option String)
    (hB : ValidBytes B) (hkEnc : ValidBytes kEnc) :
    save_bits_to_file lib out (get_bits_from_file lib name B kEnc) kDec
      = if lib.aesVerify kDec (lib.aesEncrypt kEnc B) (lib.aesTag kEnc B) then
          .ok ((match out with
                | none => JValue.str name
                | some p => JValue.str p),
            lib.aesDecrypt kDec (lib.aesEncrypt kEnc B))
        else .error .wrongPassword := by
  have hzv : ValidBytes (lib.gzipCompress (lib.jsonDumps (b64encode (lib.aesTag kEnc B))
      (b64encode (lib.aesEncrypt kEnc B)) name)) :=
    hgzv _ (hjsonv _ _ _)
  have e1 : bitsToBytes (bytesToBits (lib.gzipCompress (lib.jsonDumps
      (b64encode (lib.aesTag kEnc B)) (b64encode (lib.aesEncrypt kEnc B)) name)))
      = lib.gzipCompress (lib.jsonDumps (b64encode (lib.aesTag kEnc B))
        (b64encode (lib.aesEncrypt kEnc B)) name) :=
    bitsToBytes_bytesToBits _ hzv
  have e2 := hgz (lib.jsonDumps (b64encode (lib.aesTag kEnc B))
    (b64encode (lib.aesEncrypt kEnc B)) name)
  have e3 := hjson (b64encode (lib.aesTag kEnc B)) (b64encode (lib.aesEncrypt kEnc B)) name
  have e4 := jlookup_record (b64encode (lib.aesTag kEnc B))
    (b64encode (lib.aesEncrypt kEnc B)) name
  have e6 : b64decode (b64encode (lib.aesTag kEnc B)) = some (lib.aesTag kEnc B) :=
    b64decode_b64encode _ (htagv kEnc B hkEnc)
  have e7 : b64decode (b64encode (lib.aesEncrypt kEnc B)) = some (lib.aesEncrypt kEnc B) :=
    b64decode_b64encode _ (hencv kEnc B hB)
  simp only [get_bits_from_file, containerRecord, save_bits_to_file, e1, e2, e3,
    e4.1, e4.2.1, e4.2.2, b64decodeJ, e6, e7]
  cases out <;> rfl

/-! ## The toy library instance satisfies every external contract -/

/-- Concatenation preserves byte validity. -/
theorem ValidBytes.append {a b : Bytes} (ha : ValidBytes a) (hb : ValidBytes b) :
    ValidBytes (a ++ b) := by
  intro x hx
  rcases List.mem_append.mp hx with h | h
  exacts [ha x h, hb x h]

/-- Unary encodings only use the bytes 0 and 1. -/
theorem toyEncNat_valid (n : Nat) : ValidBytes (toyEncNat n) := by
  intro b hb
  simp [toyEncNat, List.mem_append, List.mem_replicate] at hb
  omega

/-- Toy string encodings are genuine bytes. -/
theorem toyEncStr_valid (s : String) : ValidBytes (toyEncStr s) := by
  refine ValidBytes.append (toyEncNat_valid _) ?_
  intro x hx
  rcases List.mem_flatMap.mp hx with ⟨c, _, hc⟩
  exact toyEncNat_valid c.toNat x hc

/-- Toy record serialisations are genuine bytes. -/
theorem toyJDumps_valid (t d f : String) : ValidBytes (toyJDumps t d f) :=
  ValidBytes.append (toyEncStr_valid t)
    (ValidBytes.append (toyEncStr_valid d) (toyEncStr_valid f))

/-- Unary decode inverts unary encode, leaving the remainder. -/
theorem toyDecNat_append (n : Nat) (r : Bytes) : toyDecNat (toyEncNat n ++ r) = some (n, r) := by
  induction n with
  | zero => rfl
  | succ n ih =>
      show toyDecNat (1 :: (toyEncNat n ++ r)) = some (n + 1, r)
      simp [toyDecNat, ih]

/-- Character-list decode inverts encode, leaving the remainder. -/
theorem toyDecChars_append (l : List Char) (r : Bytes) :
    toyDecChars l.length (l.flatMap toyEncChar ++ r) = some (l, r) := by
  induction l with
  | nil => rfl
  | cons c cs ih =>
      simp only [List.flatMap_cons, List.length_cons, List.append_assoc, toyEncChar]
      simp [toyDecChars, toyDecNat_append, ih, Char.ofNat_toNat]

/-- String decode inverts encode, leaving the remainder. -/
theorem toyDecStr_append (s : String) (r : Bytes) :
    toyDecStr (toyEncStr s ++ r) = some (s, r) := by
  simp only [toyEncStr, toyDecStr, List.append_assoc, toyDecNat_append, toyDecChars_append]
  rfl

/-- The toy json parser inverts the toy json serialiser. -/
theorem toyJLoads_toyJDumps (t d f : String) :
    toyJLoads (toyJDumps t d f)
      = some (.obj [("tag", .str t), ("data", .str d), ("filename", .str f)]) := by
  have hf := toyDecStr_append f []
  rw [List.append_nil] at hf
  simp only [toyJDumps, toyJLoads, toyDecStr_append, hf]

/-- Toy gzip round trip. -/
theorem toyLib_gz (b : Bytes) : toyLib.gzipDecompress (toyLib.gzipCompress b) = some b := rfl

/-- Toy gzip emits genuine bytes. -/
theorem toyLib_gzv (b : Bytes) (h : ValidBytes b) : ValidBytes (toyLib.gzipCompress b) := by
  intro x hx
  rcases List.mem_cons.mp hx with h7 | hb
  · omega
  · exact h x hb

/-- Toy json round trip, as an ExtLib contract. -/
theorem toyLib_json (t d f : String) :
    toyLib.jsonLoads (toyLib.jsonDumps t d f)
      = some (.obj [("tag", .str t), ("data", .str d), ("filename", .str f)]) :=
  toyJLoads_toyJDumps t d f

/-- Toy json emits genuine bytes, as an ExtLib contract. -/
theorem toyLib_jsonv (t d f : String) : ValidBytes (toyLib.jsonDumps t d f) :=
  toyJDumps_valid t d f

/-- Toy cipher preserves byte validity. -/
theorem toyLib_encv (k p : Bytes) (h : ValidBytes p) : ValidBytes (toyLib.aesEncrypt k p) := h

/-- Toy tag (the key itself) is genuine when the key is. -/
theorem toyLib_tagv (k p : Bytes) (h : ValidBytes k) : ValidBytes (toyLib.aesTag k p) := h

/-- Toy decryption inverts toy encryption. -/
theorem toyLib_dec (k p : Bytes) (_h : ValidBytes p) :
    toyLib.aesDecrypt k (toyLib.aesEncrypt k p) = p := rfl

/-- Toy verification accepts the matching key. -/
theorem toyLib_ver (k p : Bytes) :
    toyLib.aesVerify k (toyLib.aesEncrypt k p) (toyLib.aesTag k p) = true := by
  simp [toyLib]

/-- Toy verification rejects any other key. -/
theorem toyLib_verW (k k2 p : Bytes) (h : k ≠ k2) :
    toyLib.aesVerify k2 (toyLib.aesEncrypt k p) (toyLib.aesTag k p) = false := by
  simp only [toyLib]
  exact beq_eq_false_iff_ne.mpr h

/-! ## Claim theorems -/

/-- C1: container round trip.  For every byte sequence B, filename string and password
P, decoding the container produced by encoding under the derived key succeeds and
returns exactly the original bytes and the recorded filename: with no output path
supplied, save_bits_to_file on the bits of get_bits_from_file yields the pair
(filename, B).  The hypotheses are the documented contracts of the external
libraries: gzip decompression inverts compression, json.loads inverts json.dumps,
AES-EAX decryption inverts encryption under the same key and verification accepts the
genuine tag, and each of them produces genuine bytes from genuine inputs; PBKDF2
output is a genuine byte string. -/
theorem C1_container_roundtrip (lib : ExtLib)
    (hgz : ∀ b, lib.gzipDecompress (lib.gzipCompress b) = some b)
    (hgzv : ∀ b, ValidBytes b → ValidBytes (lib.gzipCompress b))
    (hjson : ∀ t d f, lib.jsonLoads (lib.jsonDumps t d f)
      = some (.obj [("tag", .str t), ("data", .str d), ("filename", .str f)]))
    (hjsonv : ∀ t d f, ValidBytes (lib.jsonDumps t d f))
    (hencv : ∀ k p, ValidBytes p → ValidBytes (lib.aesEncrypt k p))
    (htagv : ∀ k p, ValidBytes k → ValidBytes (lib.aesTag k p))
    (hdec : ∀ k p, ValidBytes p → lib.aesDecrypt k (lib.aesEncrypt k p) = p)
    (hver : ∀ k p, lib.aesVerify k (lib.aesEncrypt k p) (lib.aesTag k p) = true)
    (B : Bytes) (name : String) (P : String)
    (hB : ValidBytes B) (hkv : ValidBytes (lib.kdfDerive P)) :
    save_bits_to_file lib none (get_bits_from_file lib name B (lib.kdfDerive P))
        (lib.kdfDerive P)
      = .ok (.str name, B) := by
  rw [save_build lib hgz hgzv hjson hjsonv hencv htagv (lib.kdfDerive P) (lib.kdfDerive P)
    B name none hB hkv, hver, hdec _ _ hB]
  simp

/-- Witness for C1 at the toy library: the two-byte file 104 105 named f.txt round
trips under the key derived from the password pw. -/
theorem C1_container_roundtrip_witness :
    save_bits_to_file toyLib none
        (get_bits_from_file toyLib "f.txt" [104, 105] (toyLib.kdfDerive "pw"))
        (toyLib.kdfDerive "pw")
      = .ok (.str "f.txt", [104, 105]) :=
  C1_container_roundtrip toyLib toyLib_gz toyLib_gzv toyLib_json toyLib_jsonv toyLib_encv
    toyLib_tagv toyLib_dec toyLib_ver [104, 105] "f.txt" "pw" (by decide) (by decide)

/-- C3: wrong-key detection with atomicity.  Decoding a container that was encoded
under the key derived from P1, using the key derived from a different password P2,
fails with WrongPassword (the specification's AuthenticationFailure, raised after tag
verification fails), and no output file is written.  Beyond the library contracts of
C1, the hypotheses idealise the cryptography exactly as the claim does: EAX
verification under a different key rejects (hverW), and the two distinct passwords
derive distinct keys (hkne, collision-freedom of PBKDF2 at these two points). -/
theorem C3_wrong_key_detection (lib : ExtLib)
    (hgz : ∀ b, lib.gzipDecompress (lib.gzipCompress b) = some b)
    (hgzv : ∀ b, ValidBytes b → ValidBytes (lib.gzipCompress b))
    (hjson : ∀ t d f, lib.jsonLoads (lib.jsonDumps t d f)
      = some (.obj [("tag", .str t), ("data", .str d), ("filename", .str f)]))
    (hjsonv : ∀ t d f, ValidBytes (lib.jsonDumps t d f))
    (hencv : ∀ k p, ValidBytes p → ValidBytes (lib.aesEncrypt k p))
    (htagv : ∀ k p, ValidBytes k → ValidBytes (lib.aesTag k p))
    (hverW : ∀ k k2 p, k ≠ k2 →
      lib.aesVerify k2 (lib.aesEncrypt k p) (lib.aesTag k p) = false)
    (B : Bytes) (name : String) (P1 P2 : String) (out : Option String)
    (hB : ValidBytes B) (hk1 : ValidBytes (lib.kdfDerive P1))
    (_hP : P1 ≠ P2) (hkne : lib.kdfDerive P1 ≠ lib.kdfDerive P2) :
    save_bits_to_file lib out (get_bits_from_file lib name B (lib.kdfDerive P1))
        (lib.kdfDerive P2) = .error .wrongPassword ∧
      writtenFile (save_bits_to_file lib out
        (get_bits_from_file lib name B (lib.kdfDerive P1)) (lib.kdfDerive P2)) = none := by
  have h := save_build lib hgz hgzv hjson hjsonv hencv htagv (lib.kdfDerive P1)
    (lib.kdfDerive P2) B name out hB hk1
  rw [hverW _ _ _ hkne] at h
  simp only [Bool.false_eq_true, if_false] at h
  exact ⟨h, by rw [h]; rfl⟩

/-- Witness for C3 at the toy library: the passwords a and b derive distinct keys and
decoding under the wrong one fails with WrongPassword, writing nothing. -/
theorem C3_wrong_key_detection_witness :
    save_bits_to_file toyLib none
        (get_bits_from_file toyLib "f.txt" [104, 105] (toyLib.kdfDerive "a"))
        (toyLib.kdfDerive "b") = .error .wrongPassword ∧
      writtenFile (save_bits_to_file toyLib none
        (get_bits_from_file toyLib "f.txt" [104, 105] (toyLib.kdfDerive "a"))
        (toyLib.kdfDerive "b")) = none :=
  C3_wrong_key_detection toyLib toyLib_gz toyLib_gzv toyLib_json toyLib_jsonv toyLib_encv
    toyLib_tagv toyLib_verW [104, 105] "f.txt" "a" "b" none (by decide) (by decide)
    (by decide) (by decide)

/-- C9: the filename field serialised into the container is the full input path string
exactly as supplied to encode (os.path.basename is computed at line 88 of the source
but never used: os_path_basename of a path with a directory component differs from
the recorded field), and on decode the recorded full path is returned verbatim as
the output path whenever the caller supplies none. -/
theorem C9_filename_full_path (lib : ExtLib)
    (hgz : ∀ b, lib.gzipDecompress (lib.gzipCompress b) = some b)
    (hgzv : ∀ b, ValidBytes b → ValidBytes (lib.gzipCompress b))
    (hjson : ∀ t d f, lib.jsonLoads (lib.jsonDumps t d f)
      = some (.obj [("tag", .str t), ("data", .str d), ("filename", .str f)]))
    (hjsonv : ∀ t d f, ValidBytes (lib.jsonDumps t d f))
    (hencv : ∀ k p, ValidBytes p → ValidBytes (lib.aesEncrypt k p))
    (htagv : ∀ k p, ValidBytes k → ValidBytes (lib.aesTag k p))
    (hdec : ∀ k p, ValidBytes p → lib.aesDecrypt k (lib.aesEncrypt k p) = p)
    (hver : ∀ k p, lib.aesVerify k (lib.aesEncrypt k p) (lib.aesTag k p) = true)
    (B : Bytes) (filepath : String) (key : Bytes)
    (hB : ValidBytes B) (hkey : ValidBytes key) :
    (containerRecord lib filepath B key).2.2 = filepath ∧
      os_path_basename "dir/file.bin" = "file.bin" ∧
      save_bits_to_file lib none (get_bits_from_file lib filepath B key) key
        = .ok (.str filepath, B) := by
  refine ⟨rfl, by decide, ?_⟩
  rw [save_build lib hgz hgzv hjson hjsonv hencv htagv key key B filepath none hB hkey,
    hver, hdec _ _ hB]
  simp

/-- Witness for C9 at the toy library: a path with a directory component is recorded
in full and used as the output path. -/
theorem C9_filename_full_path_witness :
    (containerRecord toyLib "dir/file.bin" [1, 2] [9]).2.2 = "dir/file.bin" ∧
      os_path_basename "dir/file.bin" = "file.bin" ∧
      save_bits_to_file toyLib none (get_bits_from_file toyLib "dir/file.bin" [1, 2] [9]) [9]
        = .ok (.str "dir/file.bin", [1, 2]) :=
  C9_filename_full_path toyLib toyLib_gz toyLib_gzv toyLib_json toyLib_jsonv toyLib_encv
    toyLib_tagv toyLib_dec toyLib_ver [1, 2] "dir/file.bin" [9] (by decide) (by decide)

/-- C7 (amended): when decompression of the blob fails, or the decompressed record
cannot be parsed, or its tag or data field is missing or mis-typed, or its filename
field is missing, save_bits_to_file fails with the malformed-container error, an
error kind distinct from WrongPassword, and the result does not depend on the cipher
(the statement holds for every ExtLib with those parse outcomes, hence for every
cipher).  A present but NON-STRING filename field is excluded: the source reads
data["filename"] without a type check, so decode proceeds into the cipher stage (see
the counterexample). -/
theorem C7_malformed_before_cipher (lib : ExtLib) (key : Bytes) (bits : List Bool)
    (out : Option String) (h : ParseFails lib (bitsToBytes bits)) :
    save_bits_to_file lib out bits key = .error .malformedContainer ∧
      FvidError.malformedContainer ≠ FvidError.wrongPassword := by
  refine ⟨?_, by decide⟩
  have hbdnone : ∀ v : JValue, (∀ s, v ≠ JValue.str s) → b64decodeJ v = none := by
    intro v hv
    cases v with
    | str s => exact absurd rfl (hv s)
    | num n => rfl
    | bool b => rfl
    | null => rfl
    | arr es => rfl
    | obj fs => rfl
  rcases h with hgz | ⟨r, hr, hj⟩ | ⟨r, j, hr, hj, hcase⟩
  · simp [save_bits_to_file, hgz]
  · simp [save_bits_to_file, hr, hj]
  · rcases hcase with h1 | ⟨tv, htv, hts⟩ | h2 | ⟨dv, hdv, hds⟩ | h3
    · simp [save_bits_to_file, hr, hj, h1]
    · simp [save_bits_to_file, hr, hj, htv, hbdnone tv hts]
    · cases htag : jlookup j "tag" with
      | none => simp [save_bits_to_file, hr, hj, htag]
      | some tv =>
          cases hbd : b64decodeJ tv with
          | none => simp [save_bits_to_file, hr, hj, htag, hbd]
          | some tag => simp [save_bits_to_file, hr, hj, htag, hbd, h2]
    · cases htag : jlookup j "tag" with
      | none => simp [save_bits_to_file, hr, hj, htag]
      | some tv =>
          cases hbd : b64decodeJ tv with
          | none => simp [save_bits_to_file, hr, hj, htag, hbd]
          | some tag => simp [save_bits_to_file, hr, hj, htag, hbd, hdv, hbdnone dv hds]
    · cases htag : jlookup j "tag" with
      | none => simp [save_bits_to_file, hr, hj, htag]
      | some tv =>
          cases hbd : b64decodeJ tv with
          | none => simp [save_bits_to_file, hr, hj, htag, hbd]
          | some tag =>
              cases hdat : jlookup j "data" with
              | none => simp [save_bits_to_file, hr, hj, htag, hbd, hdat]
              | some dv =>
                  cases hbdd : b64decodeJ dv with
                  | none => simp [save_bits_to_file, hr, hj, htag, hbd, hdat, hbdd]
                  | some ct => simp [save_bits_to_file, hr, hj, htag, hbd, hdat, hbdd, h3]

/-- Witness for C7 (amended): a blob whose gzip stage fails is rejected as malformed. -/
theorem C7_malformed_before_cipher_witness :
    save_bits_to_file toyLib none (bytesToBits [0]) [0] = .error .malformedContainer ∧
      FvidError.malformedContainer ≠ FvidError.wrongPassword :=
  C7_malformed_before_cipher toyLib [0] (bytesToBits [0]) none (Or.inl (by decide))

/-- Counterexample to C7 as stated: a container that gunzips and json-parses cleanly
but whose filename field is the number 42 (a mis-typed field) does NOT fail with the
malformed-container error: decode runs the cipher stage and, under a non-matching
key, fails with WrongPassword instead.  With the real json library,
json.dumps of a dictionary with tag/data strings and filename 42 produces exactly
such a record, so the crafted blob is reachable. -/
theorem C7_counterexample :
    ceLib.jsonLoads [2, 5, 5]
        = some (.obj [("tag", .str (b64encode [1])), ("data", .str (b64encode [9])),
            ("filename", .num 42)]) ∧
      save_bits_to_file ceLib none (bytesToBits (ceLib.gzipCompress [2, 5, 5])) [2]
        = .error .wrongPassword ∧
      (Except.error FvidError.wrongPassword : Except FvidError (JValue × Bytes))
        ≠ .error .malformedContainer := by
  refine ⟨rfl, rfl, by simp⟩

/-- C2: bit/frame round trip.  A bit sequence of length exactly w*h, rendered as a
frame (bit 1 to the pure white pixel, bit 0 to the pure black pixel, row-major
left-to-right then top-to-bottom, as putdata fills an Image.new raster) and decoded
back pixel-by-pixel by get_bits_from_image, yields the identical bit sequence. -/
theorem C2_frame_roundtrip (w h : Nat) (bits : List Bool) (hlen : bits.length = w * h) :
    pixelOfBit true = (255, 255, 255) ∧ pixelOfBit false = (0, 0, 0) ∧
      get_bits_from_image (putdataImage w h bits) = bits :=
  ⟨rfl, rfl, get_bits_putdata w h bits hlen⟩

/-- Witness for C2 at a 4x4 frame of ones. -/
theorem C2_frame_roundtrip_witness :
    get_bits_from_image (putdataImage 4 4 (List.replicate 16 true)) = List.replicate 16 true :=
  (C2_frame_roundtrip 4 4 (List.replicate 16 true) (by simp)).2.2

/-- C5: sequencer decode order.  For every sequence of frames, the accumulation loop
of get_bits_from_video concatenates the per-frame decodings strictly in frame index
order: the result is exactly the flattening of get_bits_from_image mapped over the
frames in order, so the i-th frame contributes the i-th chunk. -/
theorem C5_video_decode_order (image_sequence : List FImage) :
    get_bits_from_video image_sequence
      = (image_sequence.map get_bits_from_image).flatten := by
  rw [get_bits_from_video, foldl_append_getD get_bits_from_image default image_sequence []]
  simp

/-- C6: pixel classification rule.  For a pixel with three 8-bit channels,
get_bits_from_image classifies it as bit 1 exactly when each channel is strictly
closer, by absolute difference, to white (255) than to black (0) — equivalently,
exactly when every channel is at least 128. -/
theorem C6_pixel_classification (r g b : Int) (hr : 0 ≤ r ∧ r ≤ 255)
    (hg : 0 ≤ g ∧ g ≤ 255) (hb : 0 ≤ b ∧ b ≤ 255) :
    (classifyPixel (r, g, b) = true ↔ closerToWhiteSpec (r, g, b)) ∧
      (classifyPixel (r, g, b) = true ↔ 128 ≤ r ∧ 128 ≤ g ∧ 128 ≤ b) := by
  have hcw : classifyPixel (r, g, b) = true ↔ closerToWhiteSpec (r, g, b) := by
    simp [classifyPixel, closerToWhiteSpec]
  refine ⟨hcw, hcw.trans ?_⟩
  simp only [closerToWhiteSpec]
  omega

/-- Witness for C6 at the pixel (200, 130, 128). -/
theorem C6_pixel_classification_witness : classifyPixel (200, 130, 128) = true :=
  ((C6_pixel_classification 200 130 128 (by decide) (by decide) (by decide)).2).mpr (by decide)

/-- C4: sequencer encode postcondition.  For a non-empty bitstream and chunk size
w*h > 0: make_image_sequence emits exactly ceil(length / (w*h)) frames; frame indices
are the consecutive 1-based range; before padding, the i-th chunk (0-based i here) is
exactly the bitstream slice starting at i*(w*h) of length at most w*h; padding leaves
every non-final chunk untouched (and those already have exactly w*h bits); the final
chunk is the final slice extended with trailing 0 bits to exactly w*h; and the frames
are the padded chunks in order. -/
theorem C4_sequencer_encode (bits : List Bool) (w h : Nat)
    (hb : bits ≠ []) (hn : 0 < w * h) :
    (make_image_sequence bits w h).length = (bits.length + w * h - 1) / (w * h) ∧
      (make_image_sequence bits w h).map Prod.fst
        = List.range' 1 ((make_image_sequence bits w h).length) ∧
      (∀ i : Nat, (split_string_by_n bits (w * h)).getD i []
          = (bits.drop (i * (w * h))).take (w * h)) ∧
      (∀ i : Nat, i + 1 < (make_image_sequence bits w h).length →
          (padLast (split_string_by_n bits (w * h)) (w * h)).getD i []
              = (bits.drop (i * (w * h))).take (w * h) ∧
            ((padLast (split_string_by_n bits (w * h)) (w * h)).getD i []).length = w * h) ∧
      ((padLast (split_string_by_n bits (w * h)) (w * h)).getD
            ((make_image_sequence bits w h).length - 1) []
          = (bits.drop (((make_image_sequence bits w h).length - 1) * (w * h))).take (w * h)
              ++ List.replicate (w * h -
                  ((bits.drop (((make_image_sequence bits w h).length - 1) * (w * h))).take
                      (w * h)).length) false ∧
        ((padLast (split_string_by_n bits (w * h)) (w * h)).getD
            ((make_image_sequence bits w h).length - 1) []).length = w * h) ∧
      (make_image_sequence bits w h).map Prod.snd
        = (padLast (split_string_by_n bits (w * h)) (w * h)).map (putdataImage w h) := by
  have hsl : (split_string_by_n bits (w * h)).length = (bits.length + w * h - 1) / (w * h) :=
    split_length bits (w * h) hn hb
  have hpl : (padLast (split_string_by_n bits (w * h)) (w * h)).length
      = (split_string_by_n bits (w * h)).length := padLast_length _ _
  have hmlen : (make_image_sequence bits w h).length
      = (padLast (split_string_by_n bits (w * h)) (w * h)).length := by
    simp [make_image_sequence, List.length_map, List.enum_length]
  have hframes : (make_image_sequence bits w h).length
      = (bits.length + w * h - 1) / (w * h) := by rw [hmlen, hpl, hsl]
  have hgetD := split_getD bits (w * h) hn
  have hsplit_ne : split_string_by_n bits (w * h) ≠ [] := by
    rcases Nat.exists_eq_succ_of_ne_zero (by omega : w * h ≠ 0) with ⟨m, hm⟩
    rw [hm, split_cons bits hb m]
    simp
  refine ⟨hframes, ?_, hgetD, ?_, ?_, (make_image_sequence_struct bits w h).2⟩
  · rw [(make_image_sequence_struct bits w h).1, hmlen]
  · intro i hi
    have hiQ := hi
    rw [hframes] at hiQ
    rw [hmlen, hpl] at hi
    have heq : (padLast (split_string_by_n bits (w * h)) (w * h)).getD i []
        = (bits.drop (i * (w * h))).take (w * h) := by
      rw [padLast_getD_lt _ _ _ hi, hgetD i]
    refine ⟨heq, ?_⟩
    rw [heq]
    have hmul : (i + 2) * (w * h) ≤ ((bits.length + w * h - 1) / (w * h)) * (w * h) :=
      Nat.mul_le_mul_right _ (by omega)
    have hdm : ((bits.length + w * h - 1) / (w * h)) * (w * h) ≤ bits.length + w * h - 1 :=
      Nat.div_mul_le_self _ _
    have hexp : (i + 2) * (w * h) = i * (w * h) + 2 * (w * h) := by ring
    have hlen0 : 0 < bits.length := List.length_pos.mpr hb
    simp only [List.length_take, List.length_drop]
    omega
  · have hlast := padLast_getD_last (split_string_by_n bits (w * h)) (w * h) hsplit_ne
    have hidx : (make_image_sequence bits w h).length - 1
        = (split_string_by_n bits (w * h)).length - 1 := by rw [hmlen, hpl]
    rw [hidx, hlast, hgetD]
    refine ⟨rfl, ?_⟩
    simp only [List.length_append, List.length_replicate, List.length_take, List.length_drop]
    omega

/-- Witness for C4: five bits at resolution 2 by 2 produce two frames. -/
theorem C4_sequencer_encode_witness :
    (make_image_sequence (List.replicate 5 true) 2 2).length = 2 :=
  (C4_sequencer_encode (List.replicate 5 true) 2 2 (by simp) (by decide)).1

/-- C8 (amended): the framerate guard of the encode branch accepts the strings 3 and
1/3, and rejects abc and both fraction strings with a minus sign (minus-over-three
and one-over-minus-three), raising the invalid-framerate error before any frame
encoding work; every value containing a minus sign is rejected, and every non-digit
value without a slash is rejected.  The guard does NOT reject every non-numeric
value, however: any slash-containing string without a minus sign is accepted (see
the counterexample a/b). -/
theorem C8_framerate_validation :
    framerate_rejected "3" = false ∧
      framerate_rejected "1/3" = false ∧
      framerate_rejected "-1/3" = true ∧
      framerate_rejected "abc" = true ∧
      framerate_rejected "1/-3" = true ∧
      (∀ s : String, pyContains s '-' = true → framerate_rejected s = true) ∧
      (∀ s : String, pyContains s '/' = false → pyIsdigit s = false →
        framerate_rejected s = true) ∧
      (∀ (lib : ExtLib) (fr inp : String) (bytes key : Bytes) (w h : Nat),
        framerate_rejected fr = true →
          encodeBranch lib fr inp bytes key w h = .error .invalidFramerate) := by
  refine ⟨by decide, by decide, by decide, by decide, by decide, ?_, ?_, ?_⟩
  · intro s hs
    by_cases hsl : pyContains s '/'
    · simp [framerate_rejected, hs, hsl]
    · have hmem : '-' ∈ s.toList := by simpa [pyContains] using hs
      have hall : s.toList.all Char.isDigit = false := by
        rw [List.all_eq_false]
        exact ⟨'-', hmem, by decide⟩
      have hdig : pyIsdigit s = false := by
        simp [pyIsdigit, hall]
        intro _
        exact ⟨'-', hmem, by decide⟩
      simp [framerate_rejected, hdig, hsl]
  · intro s h1 h2
    simp [framerate_rejected, h1, h2]
  · intro lib fr inp bytes key w h hrej
    simp [encodeBranch, hrej]

/-- Witness for C8 (amended): a negative integer and a slashless word are rejected,
and the encode branch stops with the invalid-framerate error before any frame work. -/
theorem C8_framerate_validation_witness :
    framerate_rejected "-7" = true ∧ framerate_rejected "xy" = true ∧
      encodeBranch toyLib "abc" "f" [] [] 2 2 = .error .invalidFramerate :=
  ⟨C8_framerate_validation.2.2.2.2.2.1 "-7" (by decide),
    C8_framerate_validation.2.2.2.2.2.2.1 "xy" (by decide) (by decide),
    C8_framerate_validation.2.2.2.2.2.2.2 toyLib "abc" "f" [] [] 2 2 (by decide)⟩

/-- Counterexample to C8 as stated: the slash-containing string a/b is not numeric
(neither all digits nor a fraction of positive integers), yet the guard accepts it,
refuting the blanket sentence that every non-numeric framerate value is rejected. -/
theorem C8_counterexample :
    framerate_rejected "a/b" = false ∧ pyIsdigit "a/b" = false := by decide

/-- C10: when the password flag is omitted from the command line entirely, argparse
yields the literal string default, and get_password returns the fixed well-known key
of thirty-two space bytes with no interactive prompt and without invoking the KDF
(the result is the same for every ExtLib); the no-echo prompt runs exactly when the
flag is passed with no value; a flag with a value never prompts. -/
theorem C10_default_key_no_prompt (lib : ExtLib) (prompt_reply : String) :
    get_password lib prompt_reply (parse_password_arg .absent)
        = (List.replicate 32 32, false) ∧
      (get_password lib prompt_reply (parse_password_arg .flagOnly)).2 = true ∧
      ∀ v : String,
        (get_password lib prompt_reply (parse_password_arg (.flagWithValue v))).2 = false := by
  refine ⟨rfl, ?_, ?_⟩
  · simp [get_password, parse_password_arg]
  · intro v
    by_cases hv : v = "default"
    · subst hv
      simp [get_password, parse_password_arg]
    · simp [get_password, parse_password_arg, hv]
